import Mathlib

/-!
Shallow embedding of `py3tester.py` (simultaneous unit, coverage, and timing
testing for python 3 modules) and verification of its specification claims.

The embedding follows the source file closely:
* `CodeTracer` (AST instrumentation): `Stmt`, `visitAcc`/`visitList`
  (`generic_visit`), `NodeInfo`, `execute_node1`/`execute_node2`,
  `get_coverage`.
* `TestResult` (outcome classification): `set_result` (`__set_result`),
  `applyEvent` (the `add*` callbacks), `runEvents`.
* `analyze_results` (coverage aggregation): `print_line`, `covLoop`
  (the cursor loops over traced rows and physical source lines),
  `bumpBin`/`coverageSummary` (hit histogram and summary).
* `run_tests` (per-file orchestration): extension check, target lookup.

Python machine details modelled: integers are unbounded (`Int`/`Nat`),
wall-clock readings are abstract integer timestamps, `sorted(..., key=line)`
is a stable sort (`List.mergeSort`), dicts that matter are insertion-ordered
association lists, and exceptions are `Except String`.
-/

namespace Py3Tester

/-- Equality of `Except` values is decidable; used to evaluate the model
at concrete inputs. -/
instance exceptDecidableEq {ε α : Type} [DecidableEq ε] [DecidableEq α] :
    DecidableEq (Except ε α)
  | .error e, .error f => decidable_of_iff (e = f) (by simp)
  | .error _, .ok _ => .isFalse (fun h => Except.noConfusion h)
  | .ok _, .error _ => .isFalse (fun h => Except.noConfusion h)
  | .ok a, .ok b => decidable_of_iff (a = b) (by simp)

/-- Python string slice `s[:n]` (`str.take`), over the character list. -/
def strTake (s : String) (n : Nat) : String :=
  String.mk (s.data.take n)

/-- Python string slice `s[-n:]`: the last `n` characters, or all of `s`
when it is shorter than `n`. -/
def strTakeRight (s : String) (n : Nat) : String :=
  String.mk (s.data.drop (s.data.length - n))

/-- Python string slice `s[:-n]`: all but the last `n` characters. -/
def strDropRight (s : String) (n : Nat) : String :=
  String.mk (s.data.take (s.data.length - n))

/-- Python `s.replace(c, d)` for single-character pattern and replacement
(the only form the source uses: between `.` and `os.path.sep`). -/
def replaceChar (c d : Char) (s : String) : String :=
  String.mk (s.data.map (fun x => if x = c then d else x))

/-! ## CodeTracer: AST model and instrumentation (`py3tester.py` lines 17-144) -/

/-- The location attributes of one python statement node: `lineno`
(1-indexed), `col_offset` (0-indexed), and whether the statement is a pure
string expression (`isinstance(node, ast.Expr) and isinstance(node.value,
ast.Str)`, i.e. a docstring). -/
structure StmtInfo where
  line : Nat
  col : Nat
  is_str : Bool
deriving DecidableEq, Repr

/-- A statement-level AST node: its location data plus the list of child
statements in document order (the statements of all its block fields, in
field order, as `ast.NodeTransformer.generic_visit` walks them). Non-statement
children are irrelevant to tracing and are omitted. -/
inductive Stmt : Type where
  | node (info : StmtInfo) (children : List Stmt) : Stmt
deriving Repr

mutual

/-- `CodeTracer.generic_visit` restricted to its effect on `self.nodes`:
the superclass visits all child statements first (appending their records),
and only then is this statement's record appended (`self.nodes.append`).
The accumulator is the `self.nodes` list. -/
def visitAcc : List StmtInfo → Stmt → List StmtInfo
  | acc, .node info cs => visitList acc cs ++ [info]

/-- Visiting a block of statements left to right, threading `self.nodes`. -/
def visitList : List StmtInfo → List Stmt → List StmtInfo
  | acc, [] => acc
  | acc, s :: rest => visitList (visitAcc acc s) rest

end

/-- The `self.nodes` contents (in id order: position `i` is the node with
`node_id = i`) after `CodeTracer.run` visits a module with the given
top-level statements. -/
def run_visit (m : List Stmt) : List StmtInfo :=
  visitList [] m

mutual

/-- Modelled from the spec: document order of the statements of a tree —
each statement first, then its substatements ("visit every statement-level
node in document order"). Used only to compare against `run_visit`. -/
def documentOrder : Stmt → List StmtInfo
  | .node info cs => info :: documentOrderList cs

/-- Modelled from the spec: document order of a block of statements. -/
def documentOrderList : List Stmt → List StmtInfo
  | [] => []
  | s :: rest => documentOrder s ++ documentOrderList rest

end

mutual

/-- Post-order listing of the statements of a tree: all substatements first,
then the statement itself. This is the order the amended claim asserts for
id assignment. -/
def postOrder : Stmt → List StmtInfo
  | .node info cs => postOrderList cs ++ [info]

/-- Post-order listing of a block of statements. -/
def postOrderList : List Stmt → List StmtInfo
  | [] => []
  | s :: rest => postOrder s ++ postOrderList rest

end

/-- One entry of `CodeTracer.nodes`: the original AST node plus its
execution counter and accumulated time (`{'node': node, 'counter': 0,
'time': 0}`). Timestamps are abstract integers, so `time` is an `Int`;
`counter` is a python int, also modelled as `Int`. -/
structure NodeInfo where
  node : StmtInfo
  counter : Int
  time : Int
deriving DecidableEq, Repr

/-- The zero-initialized record `generic_visit` registers for a statement. -/
def initNode (info : StmtInfo) : NodeInfo :=
  { node := info, counter := 0, time := 0 }

/-- `CodeTracer.execute_node1`: increment the execution counter and start
timing (`counter += 1; time -= time.time()`), at clock reading `now`. -/
def execute_node1 (s : NodeInfo) (now : Int) : NodeInfo :=
  { s with counter := s.counter + 1, time := s.time - now }

/-- `CodeTracer.execute_node2`: stop timing (`time += time.time()`), at
clock reading `now`. -/
def execute_node2 (s : NodeInfo) (now : Int) : NodeInfo :=
  { s with time := s.time + now }

/-- One tracing event observed by a single statement during the run:
`enter t` is a call of `execute_node1` (injected before the statement) and
`leave t` a call of `execute_node2` (injected in the `finally` block), each
at clock reading `t`. -/
inductive TraceEvent : Type where
  | enter (t : Int) : TraceEvent
  | leave (t : Int) : TraceEvent
deriving DecidableEq, Repr

/-- The clock reading carried by an event. -/
def stamp : TraceEvent → Int
  | .enter t => t
  | .leave t => t

/-- Apply one tracing event to a statement's record. -/
def stepEvent (s : NodeInfo) : TraceEvent → NodeInfo
  | .enter t => execute_node1 s t
  | .leave t => execute_node2 s t

/-- Replay a statement's trace over its record. -/
def runTrace (s : NodeInfo) (l : List TraceEvent) : NodeInfo :=
  l.foldl stepEvent s

/-- A completed run's event sequence for one statement: every
`execute_node1` call is matched by the `execute_node2` call of the
enclosing `try`/`finally`, with properly nested inner activations
(recursion) in between and further complete activations after. -/
inductive Balanced : List TraceEvent → Prop
  | nil : Balanced []
  | wrap (t t' : Int) (l₁ l₂ : List TraceEvent) :
      Balanced l₁ → Balanced l₂ →
      Balanced (TraceEvent.enter t :: l₁ ++ TraceEvent.leave t' :: l₂)

/-- Number of `enter` events in a trace. -/
def numEnters : List TraceEvent → Int
  | [] => 0
  | .enter _ :: r => numEnters r + 1
  | .leave _ :: r => numEnters r

/-- Net time contribution of a trace: leave stamps added, enter stamps
subtracted. -/
def delta : List TraceEvent → Int
  | [] => 0
  | .enter t :: r => delta r - t
  | .leave t :: r => delta r + t

/-- One row of `CodeTracer.get_coverage`'s result: executions, time, line,
column, and the docstring flag. -/
structure CovRow where
  executions : Int
  time : Int
  line : Nat
  column : Nat
  is_string : Bool
deriving DecidableEq, Repr

/-- The coverage dict built for one node in `get_coverage`'s loop. -/
def toRow (ni : NodeInfo) : CovRow :=
  { executions := ni.counter
    time := ni.time
    line := ni.node.line
    column := ni.node.col
    is_string := ni.node.is_str }

/-- The key comparison of `sorted(coverage, key=lambda row: row['line'])`. -/
def rowLe (a b : CovRow) : Bool :=
  a.line ≤ b.line

/-- `CodeTracer.get_coverage`: map `self.nodes` (in id order) to coverage
rows, then sort by line number. Python's `sorted` is a stable sort, which
`List.mergeSort` is. -/
def get_coverage (nodes : List NodeInfo) : List CovRow :=
  (nodes.map toRow).mergeSort rowLe

/-! ## TestResult: outcome classification (`py3tester.py` lines 147-217) -/

namespace TestResult

/-- `TestResult.ERROR`. -/
def ERROR : Int := -2

/-- `TestResult.FAIL`. -/
def FAIL : Int := -1

/-- `TestResult.SKIP`. -/
def SKIP : Int := 0

/-- `TestResult.PASS`. -/
def PASS : Int := 1

end TestResult

/-- `TestResult.__set_result`, restricted to one test name: the slot is
`self.results.get(name, None)` before the call, and the returned value is
`self.results[name]` after it. The name-derivation regex is orthogonal to
the verdict transition and is not modelled. -/
def set_result (slot : Option Int) (skip error fail : Bool) : Option Int :=
  if skip then some TestResult.SKIP
  else if error then some TestResult.ERROR
  else if fail then some TestResult.FAIL
  else
    match slot with
    | none => some TestResult.PASS
    | some v => some v

/-- The `unittest` result callbacks that `TestResult` overrides, for one
test: `addError`, `addFailure`, `addSuccess`, `addSkip`,
`addExpectedFailure`, `addUnexpectedSuccess`, and `addSubTest` (whose
`outcome is not None` flag is `failed`). -/
inductive TEvent : Type where
  | error : TEvent
  | failure : TEvent
  | success : TEvent
  | skipped : TEvent
  | expectedFailure : TEvent
  | unexpectedSuccess : TEvent
  | subTest (failed : Bool) : TEvent
deriving DecidableEq, Repr

/-- The flags each callback passes to `__set_result`. -/
def applyEvent (slot : Option Int) : TEvent → Option Int
  | .error => set_result slot false true false
  | .failure => set_result slot false false true
  | .success => set_result slot false false false
  | .skipped => set_result slot true false false
  | .expectedFailure => set_result slot false false false
  | .unexpectedSuccess => set_result slot false false true
  | .subTest failed => set_result slot false false failed

/-- Replay a sequence of callbacks for one test name over its verdict slot
(starting from `none`: no entry in `self.results`). -/
def runEvents (slot : Option Int) (es : List TEvent) : Option Int :=
  es.foldl applyEvent slot

/-! ## analyze_results: coverage aggregation (`py3tester.py` lines 321-478) -/

/-- The data `print_line` records for one emitted line: the arguments of
one `print_line(line, txt, hits, time, required)` call, which are also the
record appended to `export['coverage']['lines']` (plus the printed source
text `txt`). -/
structure CoverageLine where
  line : Nat
  txt : String
  hits : Int
  time : Int
  required : Bool
deriving DecidableEq, Repr

/-- `print_line` inside `analyze_results`: append the record, and raise
`'time travel detected'` when `required and time < 0`. (The record is
appended before the check, but the exception propagates out of
`analyze_results`, so a raising call contributes no observable record.) -/
def print_line (line : Nat) (txt : String) (hits : Int) (time : Int)
    (required : Bool) : Except String CoverageLine :=
  if required ∧ time < 0 then Except.error "time travel detected"
  else Except.ok { line := line, txt := txt, hits := hits, time := time, required := required }

/-- The `hit_bins` dict update for a required row: `hit_bins[hits] += 1`,
inserting `1` if the key is absent. Python dicts preserve insertion order,
modelled by an association list with unique keys. -/
def bumpBin (bins : List (Int × Nat)) (h : Int) : List (Int × Nat) :=
  if bins.any (fun p => p.1 = h) then
    bins.map (fun p => if p.1 = h then (p.1, p.2 + 1) else p)
  else
    bins ++ [(h, 1)]

/-- The text of a physical source line as `print_line` receives it:
`src[i][1][:-1]`, the raw `readlines` entry with its final character (the
newline) removed. -/
def lineText (raw : String) : String :=
  String.mk raw.data.dropLast

/-- The main aggregation loop of `analyze_results` over
`results['coverage']` (`rows`) and the enumerated physical source lines
(`src`, pairs of 0-indexed position and raw text), threading `hit_bins`:

* while the next physical line index precedes `row['line'] - 1`, emit it as
  untraced (`hits=0, time=0, required=False`) and advance;
* then emit the row itself with the text of the current physical line
  (`src[0]`; an exhausted `src` here is an `IndexError`), with
  `required = not row['is_string']`, bumping `hit_bins` when required;
* after the rows are exhausted, emit all remaining physical lines untraced.
-/
def covLoop : List CovRow → List (Nat × String) → List (Int × Nat) →
    Except String (List CoverageLine × List (Int × Nat))
  | [], src, bins =>
    Except.ok
      (src.map (fun p =>
        { line := p.1 + 1, txt := lineText p.2, hits := 0, time := 0, required := false }),
       bins)
  | _ :: _, [], _ => Except.error "list index out of range"
  | row :: rows, (i, raw) :: src, bins =>
    if i < row.line - 1 then
      match print_line (i + 1) (lineText raw) 0 0 false with
      | Except.error e => Except.error e
      | Except.ok cl =>
        match covLoop (row :: rows) src bins with
        | Except.error e => Except.error e
        | Except.ok (out, b) => Except.ok (cl :: out, b)
    else
      match print_line row.line (lineText raw) row.executions row.time (!row.is_string) with
      | Except.error e => Except.error e
      | Except.ok cl =>
        let bins' := if !row.is_string then bumpBin bins row.executions else bins
        match covLoop rows src bins' with
        | Except.error e => Except.error e
        | Except.ok (out, b) => Except.ok (cl :: out, b)

/-- Look up a key in `hit_bins`. The source accesses `hit_bins[0]`, which
is always present because the dict is initialized to `{0: 0}`. -/
def lookupBin (bins : List (Int × Nat)) (h : Int) : Nat :=
  ((bins.find? (fun p => p.1 = h)).map (fun p => p.2)).getD 0

/-- The exported `coverage.summary` dict of `analyze_results`. `percent` is
`lines_hit / max(total_lines, 1)`, a python float division modelled
exactly as a rational. -/
structure CovSummary where
  total_lines : Nat
  hit_lines : Nat
  missed_lines : Nat
  percent : ℚ
deriving DecidableEq, Repr

/-- The summary computation at the end of `analyze_results`
(`total_lines = sum(hit_bins.values())`, `lines_hit = total_lines -
hit_bins[0]`), paired with the *printed* overall percentage
`math.floor(100 * lines_hit / total_lines)` — an expression that raises
`ZeroDivisionError` when `total_lines == 0`, discarding the summary just
placed in the export. -/
def coverageSummary (bins : List (Int × Nat)) :
    Except String (CovSummary × Int) :=
  let total_lines := (bins.map (fun p => p.2)).sum
  let lines_hit := total_lines - lookupBin bins 0
  if total_lines = 0 then Except.error "ZeroDivisionError"
  else
    Except.ok
      ({ total_lines := total_lines
         hit_lines := lines_hit
         missed_lines := total_lines - lines_hit
         percent := (lines_hit : ℚ) / ((max total_lines 1 : Nat) : ℚ) },
       Int.floor ((100 * lines_hit : ℚ) / (total_lines : ℚ)))

/-! ## run_tests: per-file orchestration (`py3tester.py` lines 243-299) -/

/-- The dict `run_tests` returns: unit results, optional coverage rows,
and the target module/file names. -/
structure RunTestsResult where
  unit : List (String × Int)
  coverage : Option (List CovRow)
  target_module : Option String
  target_file : Option String
deriving DecidableEq, Repr

/-- `run_tests`, with its external effects abstracted as oracles: the
imported module's `__test_target__` attribute (`testTarget`), the unit
verdicts the test run produces (`unitResults`), and the coverage snapshot
the tracer would report for the target (`cov`). The returned pair carries
the warning messages printed to `output`. Control flow follows the source:
the `.py` extension check raises before any import or execution; a missing
`__test_target__` warns and skips instrumentation and coverage but still
runs the unit tests. -/
def run_tests (filename : String) (testTarget : Option String)
    (unitResults : List (String × Int)) (cov : List CovRow) :
    Except String (List String × RunTestsResult) :=
  let ext := strTakeRight filename 3
  if ext ≠ ".py" then Except.error ("not a *.py file: " ++ filename)
  else
    let module_name := replaceChar '/' '.' (strDropRight filename 3)
    match testTarget with
    | none =>
      Except.ok
        (["Warning: " ++ module_name ++ " missing attribute __test_target__. " ++
            "Coverage will not be tracked."],
         { unit := unitResults, coverage := none
           target_module := none, target_file := none })
    | some tm =>
      Except.ok
        ([],
         { unit := unitResults, coverage := some cov
           target_module := some tm
           target_file := some (replaceChar '.' '/' tm ++ ".py") })

/-! ## CodeTracer.run: the returned namespace (`py3tester.py` lines 38-50) -/

/-- The hidden binding name `CodeTracer.__INJECT_NAME` (after python's
name mangling it is the literal key placed in `global_vars`). -/
def INJECT_NAME : String := "__code_tracer__"

/-- One dict write `g[k] = v` on an insertion-ordered association list:
replace the value if the key exists, else append. -/
def upsert (g : List (String × Nat)) (kv : String × Nat) : List (String × Nat) :=
  if g.any (fun p => p.1 = kv.1) then
    g.map (fun p => if p.1 = kv.1 then kv else p)
  else
    g ++ [kv]

/-- `CodeTracer.run`'s namespace handling: `global_vars` starts as
`{__code_tracer__: self}` (the tracer reference abstracted as the value
`tracer`), the executed module's top-level writes are applied in order,
and the resulting dict is returned unfiltered. -/
def runGlobals (tracer : Nat) (writes : List (String × Nat)) :
    List (String × Nat) :=
  writes.foldl upsert [(INJECT_NAME, tracer)]

/-- The filter `run_tests` applies when merging `CodeTracer.run`'s result
into the test module: only keys not starting with `'__'` are copied. -/
def mergedBindings (g : List (String × Nat)) : List (String × Nat) :=
  g.filter (fun p => strTake p.1 2 ≠ "__")

/-! ## Theorems -/

/-- C4 counterexample: a skip event arriving after a fail event (for
example a failing subtest followed by the parent test raising `SkipTest`)
*replaces* the recorded Fail verdict with Skip, so a verdict of
Error/Fail/Skip is not terminal as claimed. -/
theorem skip_overwrites_fail_cex :
    runEvents none [TEvent.failure, TEvent.skipped] = some TestResult.SKIP ∧
      TestResult.SKIP ≠ TestResult.FAIL := by
  decide

/-- C4 (amended): a Pass verdict is only ever written into a slot that is
unset or already Pass — success, expected-failure, and passing-subtest
events never change an existing verdict; but skip, error, failure,
failed-subtest, and unexpected-success events unconditionally overwrite
whatever verdict is recorded. -/
theorem verdict_transition_laws :
    (∀ v : Int,
      applyEvent (some v) TEvent.success = some v ∧
      applyEvent (some v) TEvent.expectedFailure = some v ∧
      applyEvent (some v) (TEvent.subTest false) = some v) ∧
    (∀ slot : Option Int,
      applyEvent slot TEvent.skipped = some TestResult.SKIP ∧
      applyEvent slot TEvent.error = some TestResult.ERROR ∧
      applyEvent slot TEvent.failure = some TestResult.FAIL ∧
      applyEvent slot (TEvent.subTest true) = some TestResult.FAIL ∧
      applyEvent slot TEvent.unexpectedSuccess = some TestResult.FAIL) ∧
    (∀ (slot : Option Int) (e : TEvent),
      applyEvent slot e = some TestResult.PASS →
        slot = none ∨ slot = some TestResult.PASS) := by
  refine ⟨fun v => ⟨rfl, rfl, rfl⟩, fun slot => ⟨rfl, rfl, rfl, rfl, rfl⟩, ?_⟩
  intro slot e h
  cases e with
  | success =>
    cases slot with
    | none => exact Or.inl rfl
    | some v =>
      simp only [applyEvent, set_result, if_neg, Bool.false_eq_true] at h
      exact Or.inr (by simpa using h)
  | expectedFailure =>
    cases slot with
    | none => exact Or.inl rfl
    | some v =>
      simp only [applyEvent, set_result, if_neg, Bool.false_eq_true] at h
      exact Or.inr (by simpa using h)
  | subTest failed =>
    cases failed with
    | false =>
      cases slot with
      | none => exact Or.inl rfl
      | some v =>
        simp only [applyEvent, set_result, if_neg, Bool.false_eq_true] at h
        exact Or.inr (by simpa using h)
    | true => simp [applyEvent, set_result, TestResult.FAIL, TestResult.PASS] at h
  | error => simp [applyEvent, set_result, TestResult.ERROR, TestResult.PASS] at h
  | failure => simp [applyEvent, set_result, TestResult.FAIL, TestResult.PASS] at h
  | skipped => simp [applyEvent, set_result, TestResult.SKIP, TestResult.PASS] at h
  | unexpectedSuccess => simp [applyEvent, set_result, TestResult.FAIL, TestResult.PASS] at h

/-- Witness for `verdict_transition_laws`: a success event on an unset
slot writes Pass, and the Pass-only-into-unset law holds at that input. -/
theorem verdict_transition_laws_witness :
    applyEvent none TEvent.success = some TestResult.PASS ∧
      ((none : Option Int) = none ∨ (none : Option Int) = some TestResult.PASS) :=
  ⟨by decide, verdict_transition_laws.2.2 none TEvent.success (by decide)⟩

/-- C5: a test with one passing subtest and one failing subtest, in either
order, followed by its final success event, classifies as Fail, never
Pass. -/
theorem subtest_fail_precedence :
    runEvents none [TEvent.subTest false, TEvent.subTest true, TEvent.success]
        = some TestResult.FAIL ∧
      runEvents none [TEvent.subTest true, TEvent.subTest false, TEvent.success]
        = some TestResult.FAIL ∧
      TestResult.FAIL ≠ TestResult.PASS := by
  decide

/-- C6 counterexample: a pure string-literal (non-required) statement with
negative accumulated time does *not* raise — aggregation succeeds and the
negative value is exported unchanged (not clamped), because the check is
`if required and time < 0`. -/
theorem negative_time_unchecked_for_string_cex :
    covLoop [{ executions := 1, time := -1, line := 1, column := 0, is_string := true }]
        ([("\"doc\"\n" : String)].enum) [(0, 0)] =
      Except.ok
        ([{ line := 1, txt := "\"doc\"", hits := 1, time := -1, required := false }],
         [(0, 0)]) := by
  decide

/-- C6 (amended): a negative accumulated time raises the fatal
`'time travel detected'` error only for required (non-string) statements;
for non-required statements no check is made and the value is passed
through unchanged — in neither case is it clamped to zero. -/
theorem time_travel_check_required_only (line : Nat) (txt : String) (hits time : Int) :
    (time < 0 → print_line line txt hits time true = Except.error "time travel detected") ∧
      print_line line txt hits time false =
        Except.ok { line := line, txt := txt, hits := hits, time := time, required := false } := by
  constructor
  · intro h
    simp [print_line, h]
  · simp [print_line]

/-- Witness for `time_travel_check_required_only` at `time = -1`. -/
theorem time_travel_check_required_only_witness :
    print_line 1 "x = 1" 1 (-1) true = Except.error "time travel detected" ∧
      print_line 1 "x = 1" 1 (-1) false =
        Except.ok { line := 1, txt := "x = 1", hits := 1, time := -1, required := false } :=
  ⟨(time_travel_check_required_only 1 "x = 1" 1 (-1)).1 (by decide),
   (time_travel_check_required_only 1 "x = 1" 1 (-1)).2⟩

/-- C9 counterexample: a test module without `__test_target__` is *not*
fatal — `run_tests` returns normally (with a warning and no coverage)
rather than raising. -/
theorem missing_target_not_fatal_cex :
    run_tests "test_thing.py" none [("T.test", 1)] [] =
      Except.ok
        (["Warning: test_thing missing attribute __test_target__. " ++
            "Coverage will not be tracked."],
         { unit := [("T.test", 1)], coverage := none
           target_module := none, target_file := none }) := by
  decide

/-- C9 (amended): a missing `__test_target__` attribute is non-fatal: a
warning naming the module is printed, instrumentation and coverage are
skipped (`coverage = None`), and unit-test results are still produced. -/
theorem missing_target_warns_and_continues (filename : String)
    (unitResults : List (String × Int)) (cov : List CovRow)
    (h : strTakeRight filename 3 = ".py") :
    run_tests filename none unitResults cov =
      Except.ok
        (["Warning: " ++ replaceChar '/' '.' (strDropRight filename 3) ++
            " missing attribute __test_target__. " ++ "Coverage will not be tracked."],
         { unit := unitResults, coverage := none
           target_module := none, target_file := none }) := by
  simp [run_tests, h]

/-- Witness for `missing_target_warns_and_continues` at a concrete file. -/
theorem missing_target_warns_and_continues_witness :
    strTakeRight "test_thing.py" 3 = ".py" ∧
      run_tests "test_thing.py" none [("T.test", -1)] [] =
        Except.ok
          (["Warning: " ++ replaceChar '/' '.' (strDropRight "test_thing.py" 3) ++
              " missing attribute __test_target__. " ++ "Coverage will not be tracked."],
           { unit := [("T.test", -1)], coverage := none
             target_module := none, target_file := none }) :=
  ⟨by decide, missing_target_warns_and_continues "test_thing.py" [("T.test", -1)] [] (by decide)⟩

/-- C10: any filename whose last three characters are not `.py` makes
`run_tests` raise `'not a *.py file'` immediately; the result does not
depend on the module, its tests, or the tracer (they are never consulted),
so no import, execution, or instrumentation occurs. -/
theorem non_py_filename_rejected (filename : String) (testTarget : Option String)
    (unitResults : List (String × Int)) (cov : List CovRow)
    (h : strTakeRight filename 3 ≠ ".py") :
    run_tests filename testTarget unitResults cov =
      Except.error ("not a *.py file: " ++ filename) := by
  simp [run_tests, h]

/-- Witness for `non_py_filename_rejected` at `"foo.txt"`, with a module
that does declare a target and nonempty test results: they are ignored. -/
theorem non_py_filename_rejected_witness :
    strTakeRight "foo.txt" 3 ≠ ".py" ∧
      run_tests "foo.txt" (some "thing") [("T.test", 1)] [] =
        Except.error "not a *.py file: foo.txt" :=
  ⟨by decide, non_py_filename_rejected "foo.txt" (some "thing") [("T.test", 1)] [] (by decide)⟩

/-- C3 counterexample: with one hit and one missed required line the
exported `percent` is the raw fraction `1/2`, not
`floor(100 * hitLines / totalLines) = 50` (that floored value is only the
*printed* overall percentage); and with zero required lines the summary
raises `ZeroDivisionError` instead of reporting `percent = 0`. -/
theorem percent_not_floored_cex :
    coverageSummary [(0, 1), (1, 1)] =
      Except.ok
        ({ total_lines := 2, hit_lines := 1, missed_lines := 1, percent := 1 / 2 }, 50) ∧
      (1 / 2 : ℚ) ≠ 50 ∧
      coverageSummary [(0, 0)] = Except.error "ZeroDivisionError" := by
  refine ⟨?_, by norm_num, by decide⟩
  have h1 : (([((0 : Int), (1 : Nat)), (1, 1)]).map (fun p => p.2)).sum = 2 := by decide
  have h2 : lookupBin [(0, 1), (1, 1)] 0 = 1 := by decide
  simp only [coverageSummary, h1, h2]
  norm_num

/-- C3 (amended): when `totalLines = 0` the summary code raises
`ZeroDivisionError` (at the printed overall line) instead of reporting 0;
otherwise the exported `percent` equals the exact fraction
`hitLines / totalLines` (a value in `[0,1]`), while
`floor(100 * hitLines / totalLines)` is only the printed overall
percentage accompanying the summary. -/
theorem coverage_summary_spec (bins : List (Int × Nat)) :
    (((bins.map (fun p => p.2)).sum = 0 →
        coverageSummary bins = Except.error "ZeroDivisionError") ∧
      ((bins.map (fun p => p.2)).sum ≠ 0 →
        coverageSummary bins =
          Except.ok
            ({ total_lines := (bins.map (fun p => p.2)).sum
               hit_lines := (bins.map (fun p => p.2)).sum - lookupBin bins 0
               missed_lines :=
                 (bins.map (fun p => p.2)).sum -
                   ((bins.map (fun p => p.2)).sum - lookupBin bins 0)
               percent :=
                 (((bins.map (fun p => p.2)).sum - lookupBin bins 0 : Nat) : ℚ) /
                   (((bins.map (fun p => p.2)).sum : Nat) : ℚ) },
             Int.floor
               ((100 * ((bins.map (fun p => p.2)).sum - lookupBin bins 0 : Nat) : ℚ) /
                 (((bins.map (fun p => p.2)).sum : Nat) : ℚ))))) := by
  constructor
  · intro h
    simp [coverageSummary, h]
  · intro h
    have hmax : max ((bins.map (fun p => p.2)).sum) 1 = (bins.map (fun p => p.2)).sum :=
      Nat.max_eq_left (Nat.one_le_iff_ne_zero.mpr h)
    simp only [coverageSummary, if_neg h, hmax]

/-- Witness for `coverage_summary_spec` at the histogram `{0: 1, 1: 1}`. -/
theorem coverage_summary_spec_witness :
    (([((0 : Int), (1 : Nat)), (1, 1)].map (fun p => p.2)).sum ≠ 0 ∧
      coverageSummary [(0, 1), (1, 1)] =
        Except.ok
          ({ total_lines := 2, hit_lines := 1, missed_lines := 1, percent := (1 : ℚ) / 2 }, 50)) :=
  ⟨by decide,
   by
    have h := (coverage_summary_spec [(0, 1), (1, 1)]).2 (by decide)
    rw [h]
    norm_num [lookupBin]⟩

/-- Replacing the value stored under a key different from `k` does not
change `k`'s lookup. -/
theorem lookup_map_replace (g : List (String × Nat)) (kv : String × Nat) (k : String)
    (h : kv.1 ≠ k) :
    (g.map (fun p => if p.1 = kv.1 then kv else p)).lookup k = g.lookup k := by
  obtain ⟨kw, kvv⟩ := kv
  have hk : (k == kw) = false := by
    simp only [beq_eq_false_iff_ne]
    exact fun hh => h hh.symm
  induction g with
  | nil => rfl
  | cons p g ih =>
    obtain ⟨pk, pv⟩ := p
    by_cases hp : pk = kw
    · subst hp
      simp only [List.map_cons, if_pos rfl, ite_true, List.lookup_cons, hk, ih]
    · simp only [List.map_cons, List.lookup_cons]
      rw [if_neg (by simpa using hp)]
      simp only [List.lookup_cons, ih]

/-- Appending a binding with a key different from `k` does not change
`k`'s lookup. -/
theorem lookup_append_one_ne (g : List (String × Nat)) (kv : String × Nat) (k : String)
    (h : kv.1 ≠ k) : (g ++ [kv]).lookup k = g.lookup k := by
  rw [List.lookup_append]
  have h1 : ([kv].lookup k) = none := by
    rw [List.lookup_eq_none_iff]
    intro p hp
    simp only [List.mem_singleton] at hp
    subst hp
    simp only [bne_iff_ne]
    exact fun hh => h hh.symm
  rw [h1, Option.or_none]

/-- A dict write under a key different from `k` does not change `k`'s
lookup. -/
theorem lookup_upsert_ne (g : List (String × Nat)) (kv : String × Nat) (k : String)
    (h : kv.1 ≠ k) : (upsert g kv).lookup k = g.lookup k := by
  unfold upsert
  split
  · exact lookup_map_replace g kv k h
  · exact lookup_append_one_ne g kv k h

/-- A dict write never removes a key. -/
theorem keys_upsert_superset (g : List (String × Nat)) (kv : String × Nat) (k : String)
    (h : k ∈ g.map Prod.fst) : k ∈ (upsert g kv).map Prod.fst := by
  unfold upsert
  split
  · have heq : (g.map (fun p => if p.1 = kv.1 then kv else p)).map Prod.fst
        = g.map Prod.fst := by
      rw [List.map_map]
      apply List.map_congr_left
      intro p _
      by_cases hp1 : p.1 = kv.1 <;> simp [hp1]
    rw [heq]
    exact h
  · simp only [List.map_append]
    exact List.mem_append_left _ h

/-- A dict write makes its own key present. -/
theorem key_mem_upsert (g : List (String × Nat)) (kv : String × Nat) :
    kv.1 ∈ (upsert g kv).map Prod.fst := by
  unfold upsert
  split
  · next hany =>
    obtain ⟨p, hp, hpeq⟩ := List.any_eq_true.mp hany
    have hpeq' : p.1 = kv.1 := of_decide_eq_true hpeq
    exact List.mem_map.mpr ⟨kv, List.mem_map.mpr ⟨p, hp, by simp [hpeq']⟩, rfl⟩
  · simp

/-- Folding dict writes whose keys all differ from `k` preserves `k`'s
lookup. -/
theorem foldl_upsert_lookup (writes : List (String × Nat)) (g : List (String × Nat))
    (k : String) (h : ∀ kv ∈ writes, kv.1 ≠ k) :
    (writes.foldl upsert g).lookup k = g.lookup k := by
  induction writes generalizing g with
  | nil => rfl
  | cons kv ws ih =>
    rw [List.foldl_cons, ih _ (fun x hx => h x (List.mem_cons_of_mem _ hx)),
      lookup_upsert_ne _ _ _ (h kv (List.mem_cons_self _ _))]

/-- Folding dict writes never removes a key. -/
theorem foldl_upsert_keys_mono (writes : List (String × Nat)) (g : List (String × Nat))
    (k : String) (h : k ∈ g.map Prod.fst) :
    k ∈ (writes.foldl upsert g).map Prod.fst := by
  induction writes generalizing g with
  | nil => exact h
  | cons kv ws ih => exact ih _ (keys_upsert_superset g kv k h)

/-- Every written key is present after folding the writes. -/
theorem foldl_upsert_keys_cover (writes : List (String × Nat)) (g : List (String × Nat))
    (k : String) (h : k ∈ writes.map Prod.fst) :
    k ∈ (writes.foldl upsert g).map Prod.fst := by
  induction writes generalizing g with
  | nil => simp at h
  | cons kv ws ih =>
    rw [List.map_cons] at h
    rcases List.mem_cons.mp h with hk | hk
    · subst hk
      exact foldl_upsert_keys_mono ws _ _ (key_mem_upsert g kv)
    · exact ih _ hk

/-- C8 counterexample: the namespace `CodeTracer.run` returns *contains*
the hidden tracer binding `__code_tracer__` (the exclusion of
double-underscore names happens later, in `run_tests`'s merge). -/
theorem run_returns_tracer_binding_cex :
    runGlobals 7 [("x", 1)] = [(INJECT_NAME, 7), ("x", 1)] ∧
      (runGlobals 7 [("x", 1)]).lookup INJECT_NAME = some 7 := by
  decide

/-- C8 (amended): `CodeTracer.run` returns the top-level bindings produced
by executing the instrumented module *plus* the hidden tracer binding
`__code_tracer__` (assuming the module itself binds no name equal to it);
the hidden binding is only excluded later, by `run_tests`'s merge filter
on names starting with `__`. -/
theorem run_globals_includes_tracer (tracer : Nat) (writes : List (String × Nat))
    (h : INJECT_NAME ∉ writes.map Prod.fst) :
    (runGlobals tracer writes).lookup INJECT_NAME = some tracer ∧
      (∀ k ∈ writes.map Prod.fst, k ∈ (runGlobals tracer writes).map Prod.fst) ∧
      INJECT_NAME ∉ (mergedBindings (runGlobals tracer writes)).map Prod.fst := by
  have hne : ∀ kv ∈ writes, kv.1 ≠ INJECT_NAME := by
    intro kv hkv heq
    exact h (List.mem_map.mpr ⟨kv, hkv, heq⟩)
  refine ⟨?_, ?_, ?_⟩
  · rw [runGlobals, foldl_upsert_lookup writes _ _ hne]
    simp [List.lookup]
  · intro k hk
    exact foldl_upsert_keys_cover writes _ k hk
  · intro hmem
    obtain ⟨p, hp, hpk⟩ := List.mem_map.mp hmem
    have hfilter := (List.mem_filter.mp hp).2
    rw [hpk] at hfilter
    simp [strTake, INJECT_NAME] at hfilter

/-- Witness for `run_globals_includes_tracer` with one module binding. -/
theorem run_globals_includes_tracer_witness :
    INJECT_NAME ∉ ([("x", 1)] : List (String × Nat)).map Prod.fst ∧
      (runGlobals 7 [("x", 1)]).lookup INJECT_NAME = some 7 :=
  ⟨by decide, (run_globals_includes_tracer 7 [("x", 1)] (by decide)).1⟩

/-- Closed form of replaying a trace: the counter gains the number of
enter events and the time gains the net stamp contribution. -/
theorem runTrace_closed_form (l : List TraceEvent) (s : NodeInfo) :
    runTrace s l =
      { node := s.node, counter := s.counter + numEnters l, time := s.time + delta l } := by
  induction l generalizing s with
  | nil => simp [runTrace, numEnters, delta]
  | cons e r ih =>
    cases e with
    | enter t =>
      show runTrace (execute_node1 s t) r = _
      rw [ih]
      simp only [execute_node1, numEnters, delta, NodeInfo.mk.injEq, true_and]
      constructor <;> ring
    | leave t =>
      show runTrace (execute_node2 s t) r = _
      rw [ih]
      simp only [execute_node2, numEnters, delta, NodeInfo.mk.injEq, true_and]
      ring

/-- `delta` distributes over concatenation. -/
theorem delta_append (a b : List TraceEvent) : delta (a ++ b) = delta a + delta b := by
  induction a with
  | nil => simp [delta]
  | cons e r ih => cases e <;> simp [delta, ih] <;> ring

/-- A trace has a nonnegative number of enter events. -/
theorem numEnters_nonneg (l : List TraceEvent) : 0 ≤ numEnters l := by
  induction l with
  | nil => simp [numEnters]
  | cons e r ih => cases e <;> (simp only [numEnters]; omega)

/-- `numEnters` distributes over concatenation. -/
theorem numEnters_append (a b : List TraceEvent) :
    numEnters (a ++ b) = numEnters a + numEnters b := by
  induction a with
  | nil => simp [numEnters]
  | cons e r ih =>
    cases e <;> (simp only [List.cons_append, numEnters, List.append_eq, ih]; try ring)

/-- A balanced trace with no enter events is empty. -/
theorem balanced_numEnters_zero (l : List TraceEvent) (hb : Balanced l)
    (h : numEnters l = 0) : l = [] := by
  cases hb with
  | nil => rfl
  | wrap t t' l₁ l₂ h₁ h₂ =>
    exfalso
    rw [show numEnters (TraceEvent.enter t :: l₁ ++ TraceEvent.leave t' :: l₂)
        = numEnters (l₁ ++ TraceEvent.leave t' :: l₂) + 1 from rfl,
      numEnters_append] at h
    have e1 := numEnters_nonneg l₁
    have e2 := numEnters_nonneg (TraceEvent.leave t' :: l₂)
    omega

/-- With monotonically nondecreasing clock readings, a balanced trace
contributes nonnegative net time: each leave stamp is at least its
matching enter stamp. -/
theorem delta_nonneg (l : List TraceEvent) (hb : Balanced l)
    (hm : List.Pairwise (· ≤ ·) (l.map stamp)) : 0 ≤ delta l := by
  induction hb with
  | nil => simp [delta]
  | wrap t t' l₁ l₂ h₁ h₂ ih₁ ih₂ =>
    rw [show delta (TraceEvent.enter t :: l₁ ++ TraceEvent.leave t' :: l₂)
        = delta (l₁ ++ TraceEvent.leave t' :: l₂) - t from rfl,
      delta_append,
      show delta (TraceEvent.leave t' :: l₂) = delta l₂ + t' from rfl]
    simp only [List.map_cons, List.map_append] at hm
    have htail := List.pairwise_append.mp (List.Pairwise.of_cons hm)
    have hd₁ : 0 ≤ delta l₁ := ih₁ htail.1
    have hd₂ : 0 ≤ delta l₂ := ih₂ (List.Pairwise.of_cons htail.2.1)
    have htt' : t ≤ t' := by
      have hmem : stamp (TraceEvent.leave t')
          ∈ List.map stamp l₁ ++ stamp (TraceEvent.leave t') :: List.map stamp l₂ :=
        List.mem_append_right _ (List.mem_cons_self _ _)
      have := List.rel_of_pairwise_cons hm hmem
      simpa [stamp] using this
    omega

/-- C7: after a run completes (a balanced trace of enter/leave events with
nondecreasing clock readings), a traced statement's record satisfies
`executions ≥ 0`, `elapsedTime ≥ 0`, and `elapsedTime = 0` whenever
`executions = 0`. -/
theorem post_run_statement_invariants (info : StmtInfo) (l : List TraceEvent)
    (hb : Balanced l) (hm : List.Pairwise (· ≤ ·) (l.map stamp)) :
    0 ≤ (runTrace (initNode info) l).counter ∧
      0 ≤ (runTrace (initNode info) l).time ∧
      ((runTrace (initNode info) l).counter = 0 → (runTrace (initNode info) l).time = 0) := by
  rw [runTrace_closed_form]
  simp only [initNode, zero_add]
  refine ⟨numEnters_nonneg l, delta_nonneg l hb hm, ?_⟩
  intro h0
  rw [balanced_numEnters_zero l hb h0]
  simp [delta]

/-- Witness for `post_run_statement_invariants`: one completed activation
entered at time 1 and left at time 2. -/
theorem post_run_statement_invariants_witness :
    Balanced [TraceEvent.enter 1, TraceEvent.leave 2] ∧
      List.Pairwise (· ≤ ·) ([TraceEvent.enter 1, TraceEvent.leave 2].map stamp) ∧
      (0 ≤ (runTrace (initNode ⟨1, 0, false⟩) [TraceEvent.enter 1, TraceEvent.leave 2]).counter ∧
        0 ≤ (runTrace (initNode ⟨1, 0, false⟩) [TraceEvent.enter 1, TraceEvent.leave 2]).time ∧
        ((runTrace (initNode ⟨1, 0, false⟩) [TraceEvent.enter 1, TraceEvent.leave 2]).counter = 0 →
          (runTrace (initNode ⟨1, 0, false⟩) [TraceEvent.enter 1, TraceEvent.leave 2]).time = 0)) :=
  ⟨Balanced.wrap 1 2 [] [] Balanced.nil Balanced.nil,
   by decide,
   post_run_statement_invariants ⟨1, 0, false⟩ _
     (Balanced.wrap 1 2 [] [] Balanced.nil Balanced.nil) (by decide)⟩

mutual

/-- Visiting a statement appends exactly its post-order listing to the
accumulated `self.nodes`. -/
theorem visitAcc_eq (acc : List StmtInfo) (s : Stmt) :
    visitAcc acc s = acc ++ postOrder s := by
  match s with
  | .node info cs => rw [visitAcc, postOrder, visitList_eq, List.append_assoc]

/-- Visiting a block appends exactly its post-order listing to the
accumulated `self.nodes`. -/
theorem visitList_eq (acc : List StmtInfo) (l : List Stmt) :
    visitList acc l = acc ++ postOrderList l := by
  match l with
  | [] => rw [visitList, postOrderList, List.append_nil]
  | s :: rest =>
    rw [visitList, postOrderList, visitList_eq, visitAcc_eq, List.append_assoc]

end

/-- C2 counterexample: for the module `if True: a = 1` (an `If` statement
at line 1 column 0 whose body statement sits at line 1 column 9), the ids
are assigned to the body *before* the enclosing `If` — the `self.nodes`
order is not document order. -/
theorem ids_not_document_order_cex :
    run_visit [Stmt.node ⟨1, 0, false⟩ [Stmt.node ⟨1, 9, false⟩ []]] ≠
      documentOrderList [Stmt.node ⟨1, 0, false⟩ [Stmt.node ⟨1, 9, false⟩ []]] := by
  decide

/-- C2 (amended): statement ids are assigned in post-order — every
statement receives its id after all of its substatements, with sibling
blocks in document order (`run_visit = postOrderList`); and
`get_coverage` returns the snapshots sorted ascending by line number,
ties broken by instrumentation id: it is a permutation of the id-ordered
rows, pairwise sorted by line, and rows on any given line keep their
relative id order (stability of python's `sorted`). -/
theorem instrumentation_order_and_sort :
    (∀ m : List Stmt, run_visit m = postOrderList m) ∧
      (∀ nodes : List NodeInfo,
        List.Pairwise (fun a b => a.line ≤ b.line) (get_coverage nodes)) ∧
      (∀ nodes : List NodeInfo, (get_coverage nodes).Perm (nodes.map toRow)) ∧
      (∀ (nodes : List NodeInfo) (ln : Nat),
        (get_coverage nodes).filter (fun (r : CovRow) => r.line == ln) =
          (nodes.map toRow).filter (fun (r : CovRow) => r.line == ln)) := by
  have trans : ∀ a b c : CovRow, rowLe a b → rowLe b c → rowLe a c := by
    intro a b c hab hbc
    simp only [rowLe, decide_eq_true_eq] at hab hbc ⊢
    omega
  have total : ∀ a b : CovRow, rowLe a b || rowLe b a := by
    intro a b
    simp only [rowLe, Bool.or_eq_true, decide_eq_true_eq]
    omega
  refine ⟨?_, ?_, ?_, ?_⟩
  · intro m
    rw [run_visit, visitList_eq, List.nil_append]
  · intro nodes
    have hs := List.sorted_mergeSort trans total (nodes.map toRow)
    exact hs.imp (by intro a b h; simpa [rowLe] using h)
  · intro nodes
    exact List.mergeSort_perm (nodes.map toRow) rowLe
  · intro nodes ln
    have hpair : ((nodes.map toRow).filter (fun (r : CovRow) => r.line == ln)).Pairwise
        (fun a b => rowLe a b = true) := by
      apply List.pairwise_of_forall_mem_list
      intro a ha b hb
      have ha' := (List.mem_filter.mp ha).2
      have hb' := (List.mem_filter.mp hb).2
      simp only [beq_iff_eq] at ha' hb'
      simp [rowLe, ha', hb']
    have h1 : List.Sublist ((nodes.map toRow).filter (fun (r : CovRow) => r.line == ln))
        ((nodes.map toRow).mergeSort rowLe) :=
      List.sublist_mergeSort trans total hpair (List.filter_sublist _)
    have h4 : ((nodes.map toRow).filter (fun (r : CovRow) => r.line == ln)).filter
        (fun (r : CovRow) => r.line == ln) = (nodes.map toRow).filter (fun (r : CovRow) => r.line == ln) :=
      List.filter_eq_self.mpr (fun a ha => (List.mem_filter.mp ha).2)
    have h2 := h4 ▸ h1.filter (fun (r : CovRow) => r.line == ln)
    have hlen : (((nodes.map toRow).mergeSort rowLe).filter (fun (r : CovRow) => r.line == ln)).length
        = ((nodes.map toRow).filter (fun (r : CovRow) => r.line == ln)).length :=
      ((List.mergeSort_perm (nodes.map toRow) rowLe).filter _).length_eq
    exact (h2.eq_of_length hlen.symm).symm

/-- C1 counterexample: the two-line source `if True: a = 1` plus a blank
line has two traced statements on line 1 (the `If` and its body), and the
aggregation then emits *two* records numbered line 1 (the second carrying
line 2's text) and none numbered line 2 — not one record per physical
line. -/
theorem duplicate_line_breaks_one_per_line_cex :
    (covLoop
        (get_coverage
          ((run_visit [Stmt.node ⟨1, 0, false⟩ [Stmt.node ⟨1, 9, false⟩ []]]).map initNode))
        (["if True: a = 1\n", "\n"] : List String).enum [(0, 0)]).map
        (fun p => p.1.map CoverageLine.line) = Except.ok [1, 1] ∧
      ([1, 1] : List Nat) ≠ List.range' 1 (["if True: a = 1\n", "\n"] : List String).length := by
  constructor
  · have h : get_coverage
        ((run_visit [Stmt.node ⟨1, 0, false⟩ [Stmt.node ⟨1, 9, false⟩ []]]).map initNode)
        = [⟨0, 0, 1, 9, false⟩, ⟨0, 0, 1, 0, false⟩] := by
      unfold get_coverage
      rw [List.mergeSort_of_sorted (by decide)]
      decide
    rw [h]
    decide
  · decide

/-- One step of the aggregation loop in its untraced branch: the physical
line index precedes the next traced row's line. -/
theorem covLoop_cons_untraced (row : CovRow) (rows : List CovRow) (k : Nat) (raw : String)
    (src : List (Nat × String)) (bins : List (Int × Nat)) (h : k < row.line - 1) :
    covLoop (row :: rows) ((k, raw) :: src) bins =
      match covLoop (row :: rows) src bins with
      | Except.error e => Except.error e
      | Except.ok (out, b) =>
        Except.ok
          (({ line := k + 1, txt := lineText raw, hits := 0, time := 0,
              required := false } : CoverageLine) :: out, b) := by
  simp [covLoop, h, print_line]

/-- One step of the aggregation loop in its traced branch: the row is
consumed together with the current physical line (no raise, given a
nonnegative time on a required row). -/
theorem covLoop_cons_traced (row : CovRow) (rows : List CovRow) (k : Nat) (raw : String)
    (src : List (Nat × String)) (bins : List (Int × Nat)) (h : ¬k < row.line - 1)
    (ht : row.is_string = false → 0 ≤ row.time) :
    covLoop (row :: rows) ((k, raw) :: src) bins =
      match covLoop rows src (if !row.is_string then bumpBin bins row.executions else bins) with
      | Except.error e => Except.error e
      | Except.ok (out, b) =>
        Except.ok
          (({ line := row.line, txt := lineText raw, hits := row.executions,
              time := row.time, required := !row.is_string } : CoverageLine) :: out, b) := by
  cases hs : row.is_string with
  | false =>
    have hnt : ¬(0 > row.time) := by
      have := ht hs
      omega
    simp [covLoop, h, print_line, hs, hnt]
  | true => simp [covLoop, h, print_line, hs]

/-- Mapping the line number over the records built for untraced source
lines recovers the 1-indexed positions. -/
theorem untraced_map_line (src : List (Nat × String)) :
    ((src.map (fun p =>
        ({ line := p.1 + 1, txt := lineText p.2, hits := 0, time := 0,
           required := false } : CoverageLine))).map CoverageLine.line)
      = src.map (fun p => p.1 + 1) := by
  rw [List.map_map]
  rfl

/-- Enumerated physical-line positions, shifted to 1-indexing, are the
contiguous range starting at `k + 1`. -/
theorem enumFrom_map_add_one (raws : List String) :
    ∀ k, (List.enumFrom k raws).map (fun p => p.1 + 1)
      = List.range' (k + 1) raws.length := by
  induction raws with
  | nil => intro k; rfl
  | cons raw raws ih =>
    intro k
    simp only [List.enumFrom, List.map_cons, List.length_cons, List.range', ih]

/-- The text component of the enumeration is the raw lines themselves. -/
theorem enumFrom_map_snd_text (raws : List String) :
    ∀ k, (List.enumFrom k raws).map (fun p => lineText p.2) = raws.map lineText := by
  induction raws with
  | nil => intro k; rfl
  | cons raw raws ih =>
    intro k
    simp only [List.enumFrom, List.map_cons, ih]

/-- The generalized aggregation invariant: starting at physical position
`k`, if the remaining traced rows have strictly increasing line numbers
that all fall within the remaining physical lines, and required rows carry
nonnegative times, then the loop succeeds and emits exactly one record per
remaining physical line, in order, with the line's own text, untraced
lines defaulting to `hits=0, time=0, required=false`. -/
theorem covLoop_complete (raws : List String) :
    ∀ (k : Nat) (rows : List CovRow) (bins : List (Int × Nat)),
      List.Pairwise (fun a b => a.line < b.line) rows →
      (∀ r ∈ rows, k + 1 ≤ r.line ∧ r.line ≤ k + raws.length) →
      (∀ r ∈ rows, r.is_string = false → 0 ≤ r.time) →
      ∃ out bins',
        covLoop rows (List.enumFrom k raws) bins = Except.ok (out, bins') ∧
          out.map CoverageLine.line = List.range' (k + 1) raws.length ∧
          out.map CoverageLine.txt = raws.map lineText ∧
          (∀ cl ∈ out, (∀ r ∈ rows, r.line ≠ cl.line) →
            cl.hits = 0 ∧ cl.time = 0 ∧ cl.required = false) := by
  induction raws with
  | nil =>
    intro k rows bins hmono hbound htime
    match rows with
    | [] => exact ⟨[], bins, rfl, rfl, rfl, by intro cl hcl; simp at hcl⟩
    | row :: rest =>
      exfalso
      have := hbound row (List.mem_cons_self _ _)
      simp only [List.length_nil, Nat.add_zero] at this
      omega
  | cons raw raws ih =>
    intro k rows bins hmono hbound htime
    match rows with
    | [] =>
      refine ⟨_, bins, rfl, ?_, ?_, ?_⟩
      · rw [untraced_map_line, enumFrom_map_add_one]
      · rw [List.map_map]
        exact enumFrom_map_snd_text (raw :: raws) k
      · intro cl hcl _
        obtain ⟨p, _, rfl⟩ := List.mem_map.mp hcl
        exact ⟨rfl, rfl, rfl⟩
    | row :: rest =>
      by_cases hline : k < row.line - 1
      · have hbound' : ∀ r ∈ row :: rest, (k + 1) + 1 ≤ r.line ∧ r.line ≤ (k + 1) + raws.length := by
          intro r hr
          have hb := hbound r hr
          rcases List.mem_cons.mp hr with hr' | hr'
          · subst hr'
            simp only [List.length_cons] at hb
            omega
          · have hlt : row.line < r.line := List.rel_of_pairwise_cons hmono hr'
            simp only [List.length_cons] at hb
            omega
        obtain ⟨out, bins', heq, hlines, htxts, huntr⟩ :=
          ih (k + 1) (row :: rest) bins hmono hbound' htime
        rw [show List.enumFrom k (raw :: raws) = (k, raw) :: List.enumFrom (k + 1) raws from rfl,
          covLoop_cons_untraced row rest k raw _ bins hline, heq]
        refine ⟨_, bins', rfl, ?_, ?_, ?_⟩
        · simp only [List.map_cons, hlines, List.length_cons, List.range']
        · simp only [List.map_cons, htxts]
        · intro cl hcl hne
          rcases List.mem_cons.mp hcl with hcl' | hcl'
          · subst hcl'
            exact ⟨rfl, rfl, rfl⟩
          · exact huntr cl hcl' hne
      · have hrowline : row.line = k + 1 := by
          have := hbound row (List.mem_cons_self _ _)
          omega
        have hbound' : ∀ r ∈ rest, (k + 1) + 1 ≤ r.line ∧ r.line ≤ (k + 1) + raws.length := by
          intro r hr
          have hb := hbound r (List.mem_cons_of_mem _ hr)
          have hlt : row.line < r.line := List.rel_of_pairwise_cons hmono hr
          simp only [List.length_cons] at hb
          omega
        obtain ⟨out, bins'', heq, hlines, htxts, huntr⟩ :=
          ih (k + 1) rest (if !row.is_string then bumpBin bins row.executions else bins)
            (List.Pairwise.of_cons hmono) hbound'
            (fun r hr => htime r (List.mem_cons_of_mem _ hr))
        rw [show List.enumFrom k (raw :: raws) = (k, raw) :: List.enumFrom (k + 1) raws from rfl,
          covLoop_cons_traced row rest k raw _ bins hline (htime row (List.mem_cons_self _ _)),
          heq]
        refine ⟨_, bins'', rfl, ?_, ?_, ?_⟩
        · simp only [List.map_cons, hlines, List.length_cons, List.range', hrowline]
        · simp only [List.map_cons, htxts]
        · intro cl hcl hne
          rcases List.mem_cons.mp hcl with hcl' | hcl'
          · exfalso
            apply hne row (List.mem_cons_self _ _)
            rw [hcl']
          · exact huntr cl hcl' (fun r hr => hne r (List.mem_cons_of_mem _ hr))

/-- C1 (amended): provided each physical line carries at most one traced
statement (the sorted rows' line numbers are strictly increasing), every
row's line falls within the file, and required rows carry nonnegative
times, the aggregation produces exactly one record per physical source
line, contiguous from line 1 to the last line with no gaps or duplicates;
each record's text is its own physical line's text (stripped of the final
character, the newline), and lines with no traced statement are emitted
with `hits=0, time=0, required=false`. -/
theorem one_coverage_line_per_physical_line (raws : List String) (rows : List CovRow)
    (hmono : List.Pairwise (fun a b => a.line < b.line) rows)
    (hbound : ∀ r ∈ rows, 1 ≤ r.line ∧ r.line ≤ raws.length)
    (htime : ∀ r ∈ rows, r.is_string = false → 0 ≤ r.time) :
    ∃ out bins',
      covLoop rows raws.enum [(0, 0)] = Except.ok (out, bins') ∧
        out.map CoverageLine.line = List.range' 1 raws.length ∧
        out.map CoverageLine.txt = raws.map lineText ∧
        (∀ cl ∈ out, (∀ r ∈ rows, r.line ≠ cl.line) →
          cl.hits = 0 ∧ cl.time = 0 ∧ cl.required = false) :=
  covLoop_complete raws 0 rows [(0, 0)] hmono (by simpa using hbound) htime

/-- Witness for `one_coverage_line_per_physical_line`: a two-line file
with one traced statement on line 1. -/
theorem one_coverage_line_per_physical_line_witness :
    List.Pairwise (fun (a b : CovRow) => a.line < b.line) [⟨1, 5, 1, 0, false⟩] ∧
      (∀ r ∈ ([⟨1, 5, 1, 0, false⟩] : List CovRow),
        1 ≤ r.line ∧ r.line ≤ (["a = 1\n", "b = 2\n"] : List String).length) ∧
      (∀ r ∈ ([⟨1, 5, 1, 0, false⟩] : List CovRow), r.is_string = false → 0 ≤ r.time) ∧
      (∃ out bins',
        covLoop [⟨1, 5, 1, 0, false⟩] (["a = 1\n", "b = 2\n"] : List String).enum [(0, 0)]
            = Except.ok (out, bins') ∧
          out.map CoverageLine.line
              = List.range' 1 (["a = 1\n", "b = 2\n"] : List String).length ∧
          out.map CoverageLine.txt
              = (["a = 1\n", "b = 2\n"] : List String).map lineText ∧
          (∀ cl ∈ out, (∀ r ∈ ([⟨1, 5, 1, 0, false⟩] : List CovRow), r.line ≠ cl.line) →
            cl.hits = 0 ∧ cl.time = 0 ∧ cl.required = false)) :=
  ⟨by decide, by decide, by decide,
   one_coverage_line_per_physical_line ["a = 1\n", "b = 2\n"] [⟨1, 5, 1, 0, false⟩]
     (by decide) (by decide) (by decide)⟩

end Py3Tester
